import Mathlib

/-!
A Lean 4 shallow embedding of the interactive scene-editing core of a
browser-based BIM viewer, together with proofs about its behaviour.

The embedding covers:
* `ModelIdMap` set algebra and the incremental visibility reconciliation
  (`applyVisibilityFromState`, `subtractModelIdMap`, `addToMap`, ...);
* the single-plane cut computation (`applyCutFromState`) and the cut offset
  clamping (`setCutOffset`, `syncCutRangeForOrientation`);
* the cut tool pointer-drag offset mapping (`CutTool.onPointerMove`);
* the tool state machine (`ToolManager.setActive` and event routing);
* the hover request-serial protocol (`hoverFromPointerEvent`);
* the property-filter JSON export/import pair;
* the measurement engine (`MeasurementManager.add/list/remove`) and its
  meters formatting;
* the section box clip-plane derivation (`SectionManager.updateBoxPlanes`)
  and the clip-intersection flag (`applyToMaterials`).

JavaScript objects used as string-keyed dictionaries are embedded as
association lists with unique keys; JS `Set`s of element ids become
`Finset ℕ`; JS numbers become `ℚ` for the discrete state logic and `ℝ` for
the geometry (with an explicit `JsNum` type where non-finite values matter).
Mutation is embedded as explicit state passing, and calls into the rendering
collaborators (the hider, the highlighter, materials) are embedded as
explicit operation traces.
-/

namespace Balux

/-! ## ModelIdMap

The viewer stores "a set of elements, possibly spanning several models" as a
JS object mapping a model id to a `Set` of local integer ids.  We embed it as
an association list from `String` to `Finset ℕ`.  JS object keys are unique;
`mimWF` records that invariant where a proof needs it. -/

abbrev ModelIdMap := List (String × Finset ℕ)

def mimKeys (m : ModelIdMap) : List String := m.map Prod.fst

/-- JS objects cannot repeat a key. -/
def mimWF (m : ModelIdMap) : Prop := (mimKeys m).Nodup

instance (m : ModelIdMap) : Decidable (mimWF m) := by
  unfold mimWF; infer_instance

/-- `map[modelId]`: a missing key reads as the empty set (`undefined` has no
members; the one caller that distinguishes it, `subtractModelIdMap`, treats
both the same way). -/
def mimLookup : ModelIdMap → String → Finset ℕ
  | [], _ => ∅
  | p :: rest, mid => if p.1 = mid then p.2 else mimLookup rest mid

/-- Element membership: element `(mid, id)` belongs to the map. -/
def mimMem (m : ModelIdMap) (mid : String) (id : ℕ) : Prop :=
  ∃ p ∈ m, p.1 = mid ∧ id ∈ p.2

instance (m : ModelIdMap) (mid : String) (id : ℕ) : Decidable (mimMem m mid id) := by
  unfold mimMem; infer_instance

/-- One step of `addToMap`: union `ids` into `target[mid]`, creating the
entry when the key is absent (the source creates an empty set and then adds
into it). -/
def mimInsert (target : ModelIdMap) (mid : String) (ids : Finset ℕ) : ModelIdMap :=
  if mid ∈ mimKeys target then
    target.map (fun p => if p.1 = mid then (p.1, p.2 ∪ ids) else p)
  else
    target ++ [(mid, ids)]

/-- `addToMap(target, source)`: union every entry of `source` into `target`. -/
def addToMap (target source : ModelIdMap) : ModelIdMap :=
  source.foldl (fun acc p => mimInsert acc p.1 p.2) target

/-- `cloneModelIdMap(source)`: rebuild the map entry by entry. -/
def cloneModelIdMap (source : ModelIdMap) : ModelIdMap :=
  source.map (fun p => (p.1, p.2))

/-- `subtractModelIdMap(a, b)`: for each entry of `a`, remove the ids present
in `b` under the same key, and keep the entry only when the difference is
non-empty (the source also prunes entries whose difference is empty, and
copies `a`'s set unchanged when `b` has no entry for that key). -/
def subtractModelIdMap (a b : ModelIdMap) : ModelIdMap :=
  a.foldr
    (fun p out =>
      let diff := p.2 \ mimLookup b p.1
      if diff = ∅ then out else (p.1, diff) :: out)
    []

/-- `isEmptyMap(map)`: every stored set has size zero. -/
def isEmptyMap (m : ModelIdMap) : Bool :=
  m.all (fun p => p.2.card == 0)

theorem cloneModelIdMap_eq (m : ModelIdMap) : cloneModelIdMap m = m := by
  induction m with
  | nil => rfl
  | cons p rest ih => simp [cloneModelIdMap] at ih ⊢

theorem mimMem_nil (mid : String) (id : ℕ) : ¬ mimMem [] mid id := by
  simp [mimMem]

theorem mimMem_cons (p : String × Finset ℕ) (rest : ModelIdMap) (mid : String) (id : ℕ) :
    mimMem (p :: rest) mid id ↔ (p.1 = mid ∧ id ∈ p.2) ∨ mimMem rest mid id := by
  simp [mimMem]

theorem mimLookup_sub_of_mem {m : ModelIdMap} {mid : String} {id : ℕ}
    (h : id ∈ mimLookup m mid) : mimMem m mid id := by
  induction m with
  | nil => simp [mimLookup] at h
  | cons p rest ih =>
    rw [mimLookup] at h
    by_cases hp : p.1 = mid
    · exact (mimMem_cons p rest mid id).2 (Or.inl ⟨hp, by simpa [hp] using h⟩)
    · exact (mimMem_cons p rest mid id).2 (Or.inr (ih (by simpa [hp] using h)))

theorem mimMem_iff_lookup {m : ModelIdMap} (hWF : mimWF m) (mid : String) (id : ℕ) :
    mimMem m mid id ↔ id ∈ mimLookup m mid := by
  induction m with
  | nil => simp [mimMem, mimLookup]
  | cons p rest ih =>
    have hWFrest : mimWF rest := (List.nodup_cons.1 hWF).2
    have hnotin : p.1 ∉ mimKeys rest := (List.nodup_cons.1 hWF).1
    rw [mimMem_cons, mimLookup]
    by_cases hp : p.1 = mid
    · rw [if_pos hp]
      constructor
      · rintro (⟨_, hin⟩ | hmem)
        · exact hin
        · exfalso
          obtain ⟨q, hq, hq1, _⟩ := hmem
          exact hnotin (by rw [hp, ← hq1]; exact List.mem_map_of_mem Prod.fst hq)
      · exact fun h => Or.inl ⟨hp, h⟩
    · rw [if_neg hp, ← ih hWFrest]
      constructor
      · rintro (⟨h1, _⟩ | hmem)
        · exact absurd h1 hp
        · exact hmem
      · exact Or.inr

theorem mimMem_mimInsert (t : ModelIdMap) (mid : String) (ids : Finset ℕ)
    (mid2 : String) (id : ℕ) :
    mimMem (mimInsert t mid ids) mid2 id ↔
      mimMem t mid2 id ∨ (mid2 = mid ∧ id ∈ ids) := by
  unfold mimInsert
  by_cases hkey : mid ∈ mimKeys t
  · rw [if_pos hkey]
    constructor
    · rintro ⟨p, hp, hp1, hpin⟩
      obtain ⟨q, hq, hqeq⟩ := List.mem_map.1 hp
      by_cases hq1 : q.1 = mid
      · rw [if_pos hq1] at hqeq
        have hpin2 : id ∈ q.2 ∪ ids := by rw [← hqeq] at hpin; exact hpin
        have hq1' : q.1 = mid2 := by rw [← hqeq] at hp1; exact hp1
        rcases Finset.mem_union.1 hpin2 with hin | hin
        · exact Or.inl ⟨q, hq, hq1', hin⟩
        · exact Or.inr ⟨by rw [← hq1', hq1], hin⟩
      · rw [if_neg hq1] at hqeq
        rw [← hqeq] at hp1 hpin
        exact Or.inl ⟨q, hq, hp1, hpin⟩
    · rintro (⟨p, hp, hp1, hpin⟩ | ⟨heq, hin⟩)
      · by_cases hp1' : p.1 = mid
        · refine ⟨(p.1, p.2 ∪ ids), List.mem_map.2 ⟨p, hp, by rw [if_pos hp1']⟩, hp1, ?_⟩
          exact Finset.mem_union_left _ hpin
        · exact ⟨p, List.mem_map.2 ⟨p, hp, by rw [if_neg hp1']⟩, hp1, hpin⟩
      · obtain ⟨q, hq, hq1⟩ := List.mem_map.1 hkey
        refine ⟨(q.1, q.2 ∪ ids), List.mem_map.2 ⟨q, hq, by rw [if_pos hq1]⟩, by rw [hq1, heq], ?_⟩
        exact Finset.mem_union_right _ hin
  · rw [if_neg hkey]
    constructor
    · rintro ⟨p, hp, hp1, hpin⟩
      rcases List.mem_append.1 hp with hp | hp
      · exact Or.inl ⟨p, hp, hp1, hpin⟩
      · simp only [List.mem_singleton] at hp
        subst hp
        exact Or.inr ⟨hp1.symm, hpin⟩
    · rintro (⟨p, hp, hp1, hpin⟩ | ⟨heq, hin⟩)
      · exact ⟨p, List.mem_append_left _ hp, hp1, hpin⟩
      · exact ⟨(mid, ids), List.mem_append_right _ (List.mem_singleton.2 rfl), heq.symm, hin⟩

theorem mimMem_addToMap (t s : ModelIdMap) (mid : String) (id : ℕ) :
    mimMem (addToMap t s) mid id ↔ mimMem t mid id ∨ mimMem s mid id := by
  induction s generalizing t with
  | nil => simp [addToMap, mimMem]
  | cons p rest ih =>
    rw [addToMap, List.foldl_cons]
    rw [show List.foldl (fun acc q => mimInsert acc q.1 q.2) (mimInsert t p.1 p.2) rest =
          addToMap (mimInsert t p.1 p.2) rest from rfl]
    rw [ih, mimMem_mimInsert, mimMem_cons]
    tauto

theorem mimMem_subtract (a : ModelIdMap) {b : ModelIdMap} (hb : mimWF b)
    (mid : String) (id : ℕ) :
    mimMem (subtractModelIdMap a b) mid id ↔
      mimMem a mid id ∧ ¬ mimMem b mid id := by
  induction a with
  | nil => simp [subtractModelIdMap, mimMem]
  | cons p rest ih =>
    rw [subtractModelIdMap, List.foldr_cons]
    rw [show List.foldr
          (fun q out =>
            let diff := q.2 \ mimLookup b q.1
            if diff = ∅ then out else (q.1, diff) :: out) [] rest =
          subtractModelIdMap rest b from rfl]
    rw [mimMem_cons]
    by_cases hdiff : p.2 \ mimLookup b p.1 = ∅
    · simp only [hdiff, if_true, ih]
      constructor
      · exact fun h => ⟨Or.inr h.1, h.2⟩
      · rintro ⟨hmem | hmem, hnot⟩
        · exfalso
          obtain ⟨hp1, hpin⟩ := hmem
          have : id ∈ p.2 \ mimLookup b p.1 := by
            rw [Finset.mem_sdiff]
            refine ⟨hpin, fun hc => hnot ?_⟩
            exact mimLookup_sub_of_mem (by rw [hp1] at hc; exact hc)
          rw [hdiff] at this
          exact absurd this (Finset.not_mem_empty id)
        · exact ⟨hmem, hnot⟩
    · simp only [hdiff, if_false, mimMem_cons, ih]
      constructor
      · rintro (⟨hp1, hpin⟩ | ⟨hmem, hnot⟩)
        · rw [Finset.mem_sdiff] at hpin
          refine ⟨Or.inl ⟨hp1, hpin.1⟩, fun hc => hpin.2 ?_⟩
          rw [mimMem_iff_lookup hb] at hc
          rw [hp1]
          exact hc
        · exact ⟨Or.inr hmem, hnot⟩
      · rintro ⟨hmem | hmem, hnot⟩
        · obtain ⟨hp1, hpin⟩ := hmem
          refine Or.inl ⟨hp1, Finset.mem_sdiff.2 ⟨hpin, fun hc => hnot ?_⟩⟩
          exact mimLookup_sub_of_mem (by rw [hp1] at hc; exact hc)
        · exact Or.inr ⟨hmem, hnot⟩

theorem isEmptyMap_iff (m : ModelIdMap) :
    isEmptyMap m = true ↔ ∀ mid id, ¬ mimMem m mid id := by
  unfold isEmptyMap
  rw [List.all_eq_true]
  constructor
  · rintro h mid id ⟨p, hp, _, hpin⟩
    have := h p hp
    rw [beq_iff_eq, Finset.card_eq_zero] at this
    rw [this] at hpin
    exact absurd hpin (Finset.not_mem_empty id)
  · intro h p hp
    rw [beq_iff_eq, Finset.card_eq_zero]
    by_contra hne
    obtain ⟨id, hid⟩ := Finset.nonempty_iff_ne_empty.2 hne
    exact h p.1 id ⟨p, hp, rfl, hid⟩

/-! ## Visibility Engine: `applyVisibilityFromState`

The orchestrator keeps per-source hidden contributions (class groups with a
per-group visibility flag, storey groups likewise, the manual hide set, the
cut-derived hidden set, the property-filter exclusion set) and a cache of the
hidden set last pushed to the hider.  `applyVisibilityFromState` recomputes
the union and reconciles it incrementally.  Calls `hider.set(...)` are
embedded as an operation trace. -/

structure VisState where
  classGroupItems : List (String × ModelIdMap)
  storeyGroupItems : List (String × ModelIdMap)
  classVisibility : String → Option Bool
  storeyVisibility : String → Option Bool
  manualHidden : ModelIdMap
  cutHidden : ModelIdMap
  filteredOut : ModelIdMap
  appliedHidden : ModelIdMap
  visibilityForceFullApply : Bool
  isolateActive : Bool
  hasIfcModels : Bool

/-- `hider.set(visible, map?)` calls, in issue order. -/
inductive HiderOp where
  | showAll
  | showSet (m : ModelIdMap)
  | hideSet (m : ModelIdMap)
deriving DecidableEq

/-- The `nextHide` union computed at the start of `applyVisibilityFromState`:
hidden class groups, hidden storey groups, then the manual, cut-derived and
property-filter sets, merged with `addToMap` into a fresh map. -/
def computeNextHide (s : VisState) : ModelIdMap :=
  let h1 := s.classGroupItems.foldl
    (fun acc g => if s.classVisibility g.1 = some false then addToMap acc g.2 else acc) []
  let h2 := s.storeyGroupItems.foldl
    (fun acc g => if s.storeyVisibility g.1 = some false then addToMap acc g.2 else acc) h1
  let h3 := addToMap h2 s.manualHidden
  let h4 := addToMap h3 s.cutHidden
  addToMap h4 s.filteredOut

/-- `applyVisibilityFromState()`: no-op under isolate; without IFC models only
the cache is refreshed; under the force-full-apply flag a clear-then-apply is
issued; otherwise only the set differences are shown/hidden.  Returns the
`hider.set` trace and the updated state. -/
def applyVisibilityFromState (s : VisState) : List HiderOp × VisState :=
  if s.isolateActive then ([], s)
  else
    let nextHide := computeNextHide s
    if s.hasIfcModels = false then
      ([], { s with appliedHidden := cloneModelIdMap nextHide, visibilityForceFullApply := false })
    else if s.visibilityForceFullApply then
      (HiderOp.showAll :: (if isEmptyMap nextHide then [] else [HiderOp.hideSet nextHide]),
       { s with appliedHidden := cloneModelIdMap nextHide, visibilityForceFullApply := false })
    else
      let toHide := subtractModelIdMap nextHide s.appliedHidden
      let toShow := subtractModelIdMap s.appliedHidden nextHide
      ((if isEmptyMap toShow then [] else [HiderOp.showSet toShow]) ++
        (if isEmptyMap toHide then [] else [HiderOp.hideSet toHide]),
       { s with appliedHidden := cloneModelIdMap nextHide })

/-- The union of the five contributing sources, stated directly from the
state (the specification-level description of the target hidden set). -/
def fiveSourceHidden (s : VisState) (mid : String) (id : ℕ) : Prop :=
  (∃ g ∈ s.classGroupItems, s.classVisibility g.1 = some false ∧ mimMem g.2 mid id) ∨
  (∃ g ∈ s.storeyGroupItems, s.storeyVisibility g.1 = some false ∧ mimMem g.2 mid id) ∨
  mimMem s.manualHidden mid id ∨ mimMem s.cutHidden mid id ∨
  mimMem s.filteredOut mid id

/-- Element `(mid, id)` receives a show operation somewhere in the trace. -/
def opsShow (ops : List HiderOp) (mid : String) (id : ℕ) : Prop :=
  ∃ op ∈ ops, ∃ m, op = HiderOp.showSet m ∧ mimMem m mid id

/-- Element `(mid, id)` receives a hide operation somewhere in the trace. -/
def opsHide (ops : List HiderOp) (mid : String) (id : ℕ) : Prop :=
  ∃ op ∈ ops, ∃ m, op = HiderOp.hideSet m ∧ mimMem m mid id

theorem mimMem_groupFold (l : List (String × ModelIdMap)) (P : String → Prop)
    [DecidablePred P] (init : ModelIdMap) (mid : String) (id : ℕ) :
    mimMem (l.foldl (fun acc g => if P g.1 then addToMap acc g.2 else acc) init) mid id ↔
      mimMem init mid id ∨ ∃ g ∈ l, P g.1 ∧ mimMem g.2 mid id := by
  induction l generalizing init with
  | nil => simp
  | cons g rest ih =>
    rw [List.foldl_cons]
    by_cases hg : P g.1
    · rw [if_pos hg, ih, mimMem_addToMap]
      constructor
      · rintro ((h | h) | h)
        · exact Or.inl h
        · exact Or.inr ⟨g, List.mem_cons_self g rest, hg, h⟩
        · obtain ⟨g2, hg2, hP, hm⟩ := h
          exact Or.inr ⟨g2, List.mem_cons_of_mem g hg2, hP, hm⟩
      · rintro (h | ⟨g2, hg2, hP, hm⟩)
        · exact Or.inl (Or.inl h)
        · rcases List.mem_cons.1 hg2 with rfl | hg2
          · exact Or.inl (Or.inr hm)
          · exact Or.inr ⟨g2, hg2, hP, hm⟩
    · rw [if_neg hg, ih]
      constructor
      · rintro (h | ⟨g2, hg2, hP, hm⟩)
        · exact Or.inl h
        · exact Or.inr ⟨g2, List.mem_cons_of_mem g hg2, hP, hm⟩
      · rintro (h | ⟨g2, hg2, hP, hm⟩)
        · exact Or.inl h
        · rcases List.mem_cons.1 hg2 with rfl | hg2
          · exact absurd hP hg
          · exact Or.inr ⟨g2, hg2, hP, hm⟩

theorem mimMem_computeNextHide (s : VisState) (mid : String) (id : ℕ) :
    mimMem (computeNextHide s) mid id ↔ fiveSourceHidden s mid id := by
  unfold computeNextHide fiveSourceHidden
  simp only [mimMem_addToMap,
    mimMem_groupFold s.storeyGroupItems (fun gid => s.storeyVisibility gid = some false),
    mimMem_groupFold s.classGroupItems (fun gid => s.classVisibility gid = some false)]
  simp only [mimMem_nil, false_or, or_assoc]

theorem mimWF_mimInsert {t : ModelIdMap} (h : mimWF t) (mid : String) (ids : Finset ℕ) :
    mimWF (mimInsert t mid ids) := by
  unfold mimInsert
  by_cases hkey : mid ∈ mimKeys t
  · rw [if_pos hkey]
    have : mimKeys (t.map (fun p => if p.1 = mid then (p.1, p.2 ∪ ids) else p)) = mimKeys t := by
      unfold mimKeys
      rw [List.map_map]
      refine List.map_congr_left (fun p _ => ?_)
      by_cases hp : p.1 = mid
      · simp [hp]
      · simp [hp]
    unfold mimWF
    rw [this]
    exact h
  · rw [if_neg hkey]
    unfold mimWF mimKeys at h ⊢
    rw [List.map_append, List.nodup_append]
    exact ⟨h, List.nodup_singleton mid, by
      intro a ha hb
      simp only [List.map_cons, List.map_nil, List.mem_singleton] at hb
      exact hkey (hb ▸ ha)⟩

theorem mimWF_addToMap {t : ModelIdMap} (h : mimWF t) (s : ModelIdMap) :
    mimWF (addToMap t s) := by
  induction s generalizing t with
  | nil => exact h
  | cons p rest ih =>
    rw [addToMap, List.foldl_cons]
    exact ih (mimWF_mimInsert h p.1 p.2)

theorem mimWF_groupFold (l : List (String × ModelIdMap)) (P : String → Prop)
    [DecidablePred P] {init : ModelIdMap} (h : mimWF init) :
    mimWF (l.foldl (fun acc g => if P g.1 then addToMap acc g.2 else acc) init) := by
  induction l generalizing init with
  | nil => exact h
  | cons g rest ih =>
    rw [List.foldl_cons]
    by_cases hg : P g.1
    · rw [if_pos hg]
      exact ih (mimWF_addToMap h g.2)
    · rw [if_neg hg]
      exact ih h

theorem mimWF_nil : mimWF ([] : ModelIdMap) := by
  unfold mimWF mimKeys
  exact List.nodup_nil

theorem mimWF_computeNextHide (s : VisState) : mimWF (computeNextHide s) := by
  unfold computeNextHide
  exact mimWF_addToMap (mimWF_addToMap (mimWF_addToMap
    (mimWF_groupFold _ (fun gid => s.storeyVisibility gid = some false)
      (mimWF_groupFold _ (fun gid => s.classVisibility gid = some false)
        mimWF_nil)) s.manualHidden) s.cutHidden) s.filteredOut

theorem opsShow_diffTrace (a b : ModelIdMap) (mid : String) (id : ℕ) :
    opsShow ((if isEmptyMap a then [] else [HiderOp.showSet a]) ++
        (if isEmptyMap b then [] else [HiderOp.hideSet b])) mid id ↔
      mimMem a mid id := by
  by_cases h1 : isEmptyMap a
  · rw [if_pos h1]
    have hnone := (isEmptyMap_iff a).1 h1 mid id
    by_cases h2 : isEmptyMap b
    · rw [if_pos h2]
      simp [opsShow, hnone]
    · rw [if_neg h2]
      simp [opsShow, hnone]
  · rw [if_neg h1]
    by_cases h2 : isEmptyMap b
    · rw [if_pos h2]
      simp [opsShow]
    · rw [if_neg h2]
      simp [opsShow]

theorem opsHide_diffTrace (a b : ModelIdMap) (mid : String) (id : ℕ) :
    opsHide ((if isEmptyMap a then [] else [HiderOp.showSet a]) ++
        (if isEmptyMap b then [] else [HiderOp.hideSet b])) mid id ↔
      mimMem b mid id := by
  by_cases h2 : isEmptyMap b
  · rw [if_pos h2]
    have hnone := (isEmptyMap_iff b).1 h2 mid id
    by_cases h1 : isEmptyMap a
    · rw [if_pos h1]
      simp [opsHide, hnone]
    · rw [if_neg h1]
      simp [opsHide, hnone]
  · rw [if_neg h2]
    by_cases h1 : isEmptyMap a
    · rw [if_pos h1]
      simp [opsHide]
    · rw [if_neg h1]
      simp [opsHide]

/-- C1: starting from any previously applied hidden-set state, on the
incremental path (not isolating, IFC models loaded, no force-full-apply
pending), `applyVisibilityFromState` computes the union of the five
contributing sources (class-hidden groups, storey-hidden groups, manual-hide
set, cut-derived hidden set, property-filter exclusion set) and issues show
operations exactly for the elements of the old applied set that are absent
from the new union, hide operations exactly for the elements of the new
union absent from the old applied set, no operation for elements whose
status is unchanged, and stores an applied hidden set whose membership
equals the five-source union — the same applied set a full clear-then-apply
recomputation (the force-full-apply path) of the same union produces. -/
theorem applyVisibility_diff_correct (s : VisState)
    (hIso : s.isolateActive = false) (hIfc : s.hasIfcModels = true)
    (hForce : s.visibilityForceFullApply = false)
    (hWF : mimWF s.appliedHidden) :
    (∀ mid id, opsShow (applyVisibilityFromState s).1 mid id ↔
        mimMem s.appliedHidden mid id ∧ ¬ fiveSourceHidden s mid id) ∧
    (∀ mid id, opsHide (applyVisibilityFromState s).1 mid id ↔
        fiveSourceHidden s mid id ∧ ¬ mimMem s.appliedHidden mid id) ∧
    (∀ mid id, (mimMem s.appliedHidden mid id ↔ fiveSourceHidden s mid id) →
        ¬ opsShow (applyVisibilityFromState s).1 mid id ∧
          ¬ opsHide (applyVisibilityFromState s).1 mid id) ∧
    (∀ mid id, mimMem (applyVisibilityFromState s).2.appliedHidden mid id ↔
        fiveSourceHidden s mid id) ∧
    (∀ mid id, mimMem (applyVisibilityFromState s).2.appliedHidden mid id ↔
        mimMem (applyVisibilityFromState
          { s with visibilityForceFullApply := true }).2.appliedHidden mid id) := by
  have hred : applyVisibilityFromState s =
      ((if isEmptyMap (subtractModelIdMap s.appliedHidden (computeNextHide s)) then []
          else [HiderOp.showSet (subtractModelIdMap s.appliedHidden (computeNextHide s))]) ++
        (if isEmptyMap (subtractModelIdMap (computeNextHide s) s.appliedHidden) then []
          else [HiderOp.hideSet (subtractModelIdMap (computeNextHide s) s.appliedHidden)]),
       { s with appliedHidden := cloneModelIdMap (computeNextHide s) }) := by
    rw [applyVisibilityFromState]
    simp [hIso, hIfc, hForce]
  have hshow : ∀ mid id, mimMem (subtractModelIdMap s.appliedHidden (computeNextHide s)) mid id ↔
      mimMem s.appliedHidden mid id ∧ ¬ fiveSourceHidden s mid id := by
    intro mid id
    rw [mimMem_subtract _ (mimWF_computeNextHide s), mimMem_computeNextHide]
  have hhide : ∀ mid id, mimMem (subtractModelIdMap (computeNextHide s) s.appliedHidden) mid id ↔
      fiveSourceHidden s mid id ∧ ¬ mimMem s.appliedHidden mid id := by
    intro mid id
    rw [mimMem_subtract _ hWF, mimMem_computeNextHide]
  have hforceState : (applyVisibilityFromState
      { s with visibilityForceFullApply := true }).2.appliedHidden =
      cloneModelIdMap (computeNextHide { s with visibilityForceFullApply := true }) := by
    rw [applyVisibilityFromState]
    simp [hIso, hIfc]
  have hforceSame : computeNextHide { s with visibilityForceFullApply := true } =
      computeNextHide s := rfl
  refine ⟨?_, ?_, ?_, ?_, ?_⟩
  · intro mid id
    rw [hred, opsShow_diffTrace, hshow]
  · intro mid id
    rw [hred, opsHide_diffTrace, hhide]
  · intro mid id hsame
    constructor
    · rw [hred, opsShow_diffTrace, hshow]
      rintro ⟨hmem, hnot⟩
      exact hnot (hsame.1 hmem)
    · rw [hred, opsHide_diffTrace, hhide]
      rintro ⟨hmem, hnot⟩
      exact hnot (hsame.2 hmem)
  · intro mid id
    rw [hred]
    show mimMem (cloneModelIdMap (computeNextHide s)) mid id ↔ _
    rw [cloneModelIdMap_eq, mimMem_computeNextHide]
  · intro mid id
    rw [hred, hforceState, hforceSame]

/-- A concrete orchestrator state used to instantiate the visibility
reconciliation theorem: one hidden class group, one manually hidden element,
and a previously applied hidden set that partially overlaps the new union. -/
def visDemoState : VisState where
  classGroupItems := [("walls", [("m1", {1, 2})])]
  storeyGroupItems := []
  classVisibility := fun gid => if gid = "walls" then some false else none
  storeyVisibility := fun _ => none
  manualHidden := [("m1", {3})]
  cutHidden := []
  filteredOut := []
  appliedHidden := [("m1", {2, 9})]
  visibilityForceFullApply := false
  isolateActive := false
  hasIfcModels := true

theorem applyVisibility_diff_correct_witness :
    (visDemoState.isolateActive = false ∧ visDemoState.hasIfcModels = true ∧
      visDemoState.visibilityForceFullApply = false ∧ mimWF visDemoState.appliedHidden) ∧
    (opsShow (applyVisibilityFromState visDemoState).1 "m1" 9 ↔
      mimMem visDemoState.appliedHidden "m1" 9 ∧ ¬ fiveSourceHidden visDemoState "m1" 9) :=
  ⟨⟨rfl, rfl, rfl, by decide⟩,
    (applyVisibility_diff_correct visDemoState rfl rfl rfl (by decide)).1 "m1" 9⟩

/-! ## Cut state and `applyCutFromState`

The single-plane cut state lives in the UI store: enabled flag, orientation
(horizontal cuts sample the vertical `z` axis, vertical cuts sample `x`),
flip flag, offset and its `[min, max]` bounds, and a list of ignored
semantic classes.  Per-element cut samples are cached per model.  Numbers
are embedded as `ℚ`. -/

inductive CutOrientation where
  | horizontal
  | vertical
deriving DecidableEq

structure CutState where
  enabled : Bool
  orientation : CutOrientation
  flip : Bool
  offset : ℚ
  min : ℚ
  max : ℚ
  ignoredClasses : List String
deriving DecidableEq

/-- One cached per-element cut sample (`itemCutSamplesByModel` entry). -/
structure CutSample where
  localId : ℕ
  classId : String
  sampleX : ℚ
  sampleZ : ℚ
deriving DecidableEq

/-- `cut.orientation === "horizontal" ? sample.sampleZ : sample.sampleX`. -/
def cutSampleAxisValue (cut : CutState) (smp : CutSample) : ℚ :=
  if cut.orientation = CutOrientation.horizontal then smp.sampleZ else smp.sampleX

/-- `classId && ignored.has(classId)`: an empty class id is falsy in JS, so
such samples are never skipped. -/
def cutSampleSkipped (cut : CutState) (smp : CutSample) : Bool :=
  !(smp.classId == "") && cut.ignoredClasses.contains smp.classId

/-- `cut.flip ? axisValue > cut.offset : axisValue < cut.offset`. -/
def cutShouldHide (cut : CutState) (smp : CutSample) : Bool :=
  if cut.flip then decide (cutSampleAxisValue cut smp > cut.offset)
  else decide (cutSampleAxisValue cut smp < cut.offset)

/-- The per-model hidden id set accumulated by the sample loop. -/
def cutHiddenForModel (cut : CutState) (samples : List CutSample) : Finset ℕ :=
  ((samples.filter (fun smp => !cutSampleSkipped cut smp && cutShouldHide cut smp)).map
    (fun smp => smp.localId)).toFinset

/-- The cut-derived hidden map computed by `applyCutFromState` on the IFC
path: empty when the cut is disabled, otherwise one entry per model whose
accumulated set is non-empty (empty entries are deleted before storing). -/
def applyCutHidden (cut : CutState)
    (samplesByModel : List (String × List CutSample)) : ModelIdMap :=
  if cut.enabled = false then []
  else
    samplesByModel.foldr
      (fun pr out =>
        let target := cutHiddenForModel cut pr.2
        if target.card == 0 then out else (pr.1, target) :: out)
      []

theorem mem_cutHiddenForModel (cut : CutState) (samples : List CutSample) (lid : ℕ) :
    lid ∈ cutHiddenForModel cut samples ↔
      ∃ smp ∈ samples, cutSampleSkipped cut smp = false ∧
        cutShouldHide cut smp = true ∧ smp.localId = lid := by
  unfold cutHiddenForModel
  rw [List.mem_toFinset]
  simp only [List.mem_map, List.mem_filter, Bool.and_eq_true, Bool.not_eq_true']
  constructor
  · rintro ⟨smp, ⟨⟨hs, hskip, hhide⟩, hlid⟩⟩
    exact ⟨smp, hs, hskip, hhide, hlid⟩
  · rintro ⟨smp, hs, hskip, hhide, hlid⟩
    exact ⟨smp, ⟨⟨hs, hskip, hhide⟩, hlid⟩⟩

theorem mimMem_applyCutHidden (cut : CutState)
    (sbm : List (String × List CutSample)) (hen : cut.enabled = true)
    (mid : String) (lid : ℕ) :
    mimMem (applyCutHidden cut sbm) mid lid ↔
      ∃ pr ∈ sbm, pr.1 = mid ∧ lid ∈ cutHiddenForModel cut pr.2 := by
  unfold applyCutHidden
  rw [if_neg (by simp [hen])]
  induction sbm with
  | nil => simp [mimMem]
  | cons pr rest ih =>
    rw [List.foldr_cons]
    by_cases hcard : ((cutHiddenForModel cut pr.2).card == 0) = true
    · rw [if_pos hcard, ih]
      have hempty : cutHiddenForModel cut pr.2 = ∅ :=
        Finset.card_eq_zero.1 (by simpa using hcard)
      constructor
      · rintro ⟨pr2, hpr2, h1, h2⟩
        exact ⟨pr2, List.mem_cons_of_mem pr hpr2, h1, h2⟩
      · rintro ⟨pr2, hpr2, h1, h2⟩
        rcases List.mem_cons.1 hpr2 with rfl | hpr2
        · exfalso
          rw [hempty] at h2
          exact absurd h2 (Finset.not_mem_empty lid)
        · exact ⟨pr2, hpr2, h1, h2⟩
    · rw [if_neg hcard, mimMem_cons, ih]
      constructor
      · rintro (⟨h1, h2⟩ | ⟨pr2, hpr2, h1, h2⟩)
        · exact ⟨pr, List.mem_cons_self pr rest, h1, h2⟩
        · exact ⟨pr2, List.mem_cons_of_mem pr hpr2, h1, h2⟩
      · rintro ⟨pr2, hpr2, h1, h2⟩
        rcases List.mem_cons.1 hpr2 with rfl | hpr2
        · exact Or.inl ⟨h1, h2⟩
        · exact Or.inr ⟨pr2, hpr2, h1, h2⟩

/-- The cut state of the concrete scenario: horizontal orientation,
offset 2, enabled; `flip` is the scenario parameter. -/
def cutDemoState (flip : Bool) : CutState where
  enabled := true
  orientation := CutOrientation.horizontal
  flip := flip
  offset := 2
  min := 0
  max := 10
  ignoredClasses := []

/-- The concrete scenario samples: element 1 samples z = 1, element 2
samples z = 3, in one model. -/
def cutDemoSamples : List (String × List CutSample) :=
  [("m", [⟨1, "", 0, 1⟩, ⟨2, "", 0, 3⟩])]

/-- C3: with the cut enabled, horizontal orientation, offset 2 and
flip = false, the element sampling z = 1 lands in the cut-derived hidden set
and the element sampling z = 3 does not; flip = true reverses both.  In
general a non-ignored-class sample's element is hidden exactly when
`flip ? sample > offset : sample < offset`, where the sample coordinate is
`z` for horizontal orientation and `x` for vertical orientation. -/
theorem applyCut_hidden_correct (cut : CutState)
    (sbm : List (String × List CutSample)) (model : String)
    (samples : List CutSample) (smp : CutSample)
    (hen : cut.enabled = true)
    (hmem : (model, samples) ∈ sbm)
    (hkeys : (sbm.map Prod.fst).Nodup)
    (hids : (samples.map CutSample.localId).Nodup)
    (hsmp : smp ∈ samples)
    (hskip : cutSampleSkipped cut smp = false) :
    (mimMem (applyCutHidden cut sbm) model smp.localId ↔
      ((cut.flip = true ∧
          (if cut.orientation = CutOrientation.horizontal then smp.sampleZ
            else smp.sampleX) > cut.offset) ∨
        (cut.flip = false ∧
          (if cut.orientation = CutOrientation.horizontal then smp.sampleZ
            else smp.sampleX) < cut.offset))) ∧
    mimMem (applyCutHidden (cutDemoState false) cutDemoSamples) "m" 1 ∧
    ¬ mimMem (applyCutHidden (cutDemoState false) cutDemoSamples) "m" 2 ∧
    ¬ mimMem (applyCutHidden (cutDemoState true) cutDemoSamples) "m" 1 ∧
    mimMem (applyCutHidden (cutDemoState true) cutDemoSamples) "m" 2 := by
  refine ⟨?_, by decide, by decide, by decide, by decide⟩
  rw [mimMem_applyCutHidden cut sbm hen]
  constructor
  · rintro ⟨pr, hpr, h1, h2⟩
    have hpreq : pr = (model, samples) := by
      have := List.inj_on_of_nodup_map hkeys hpr hmem (by rw [h1])
      exact this
    subst hpreq
    rw [mem_cutHiddenForModel] at h2
    obtain ⟨smp2, hsmp2, _, hhide2, hlid2⟩ := h2
    have hsame : smp2 = smp :=
      List.inj_on_of_nodup_map hids hsmp2 hsmp hlid2
    subst hsame
    rw [cutShouldHide] at hhide2
    by_cases hflip : cut.flip
    · rw [if_pos hflip, decide_eq_true_eq] at hhide2
      exact Or.inl ⟨hflip, by rw [← cutSampleAxisValue]; exact hhide2⟩
    · rw [if_neg hflip, decide_eq_true_eq] at hhide2
      exact Or.inr ⟨Bool.not_eq_true cut.flip ▸ hflip, by rw [← cutSampleAxisValue]; exact hhide2⟩
  · intro h
    refine ⟨(model, samples), hmem, rfl, ?_⟩
    rw [mem_cutHiddenForModel]
    refine ⟨smp, hsmp, hskip, ?_, rfl⟩
    rw [cutShouldHide]
    rcases h with ⟨hflip, hgt⟩ | ⟨hflip, hlt⟩
    · rw [if_pos hflip, decide_eq_true_eq]
      rw [cutSampleAxisValue]
      exact hgt
    · rw [if_neg (by rw [hflip]; exact Bool.false_ne_true), decide_eq_true_eq]
      rw [cutSampleAxisValue]
      exact hlt

theorem applyCut_hidden_correct_witness :
    ((cutDemoState false).enabled = true ∧
      ("m", [(⟨1, "", 0, 1⟩ : CutSample), ⟨2, "", 0, 3⟩]) ∈ cutDemoSamples ∧
      (cutDemoSamples.map Prod.fst).Nodup ∧
      (([(⟨1, "", 0, 1⟩ : CutSample), ⟨2, "", 0, 3⟩]).map CutSample.localId).Nodup ∧
      (⟨1, "", 0, 1⟩ : CutSample) ∈ [(⟨1, "", 0, 1⟩ : CutSample), ⟨2, "", 0, 3⟩] ∧
      cutSampleSkipped (cutDemoState false) ⟨1, "", 0, 1⟩ = false) ∧
    (mimMem (applyCutHidden (cutDemoState false) cutDemoSamples) "m"
        (CutSample.localId ⟨1, "", 0, 1⟩) ↔
      (((cutDemoState false).flip = true ∧
          (if (cutDemoState false).orientation = CutOrientation.horizontal then (1 : ℚ)
            else 0) > (cutDemoState false).offset) ∨
        ((cutDemoState false).flip = false ∧
          (if (cutDemoState false).orientation = CutOrientation.horizontal then (1 : ℚ)
            else 0) < (cutDemoState false).offset))) :=
  ⟨⟨by decide, by decide, by decide, by decide, by decide, by decide⟩,
    (applyCut_hidden_correct (cutDemoState false) cutDemoSamples "m"
      [⟨1, "", 0, 1⟩, ⟨2, "", 0, 3⟩] ⟨1, "", 0, 1⟩
      (by decide) (by decide) (by decide) (by decide) (by decide) (by decide)).1⟩

/-! ## Cut offset clamping and range resynchronization -/

/-- `THREE.MathUtils.clamp(value, min, max) = Math.max(min, Math.min(max, value))`. -/
def threeClamp (value lo hi : ℚ) : ℚ := max lo (min hi value)

/-- `setCutOffset(offset)`: stores
`Math.min(Math.max(offset, cut.min), cut.max)`. -/
def setCutOffset (cut : CutState) (offset : ℚ) : CutState :=
  { cut with offset := min (max offset cut.min) cut.max }

/-- The orchestrator's cached model bounds used by the cut range. -/
structure CutBounds where
  xMin : ℚ
  xMax : ℚ
  zMin : ℚ
  zMax : ℚ

structure CutSyncOpts where
  center : Bool
  preserveRatio : Bool

/-- `syncCutRangeForOrientation(orientation, opts)`: picks the `z` bounds for
a horizontal cut and the `x` bounds for a vertical one, re-derives the
offset (centered, ratio-preserving, or kept), clamps it into the new range
and stores orientation, bounds and offset together.  (`ℚ` values are always
finite, so the `!Number.isFinite(offset)` disjunct of the center branch
cannot fire here.) -/
def syncCutRangeForOrientation (bounds : CutBounds) (cut : CutState)
    (orientation : CutOrientation) (opts : CutSyncOpts) : CutState :=
  let lo := if orientation = CutOrientation.horizontal then bounds.zMin else bounds.xMin
  let hi := if orientation = CutOrientation.horizontal then bounds.zMax else bounds.xMax
  let span := hi - lo
  let offset1 :=
    if opts.center then lo + span * (1 / 2)
    else if opts.preserveRatio then
      let prevSpan := cut.max - cut.min
      let t := if prevSpan > 1 / 1000000 then (cut.offset - cut.min) / prevSpan else 1 / 2
      lo + threeClamp t 0 1 * span
    else cut.offset
  let offset2 := threeClamp offset1 lo hi
  { cut with orientation := orientation, min := lo, max := hi, offset := offset2 }

/-- C10: `setCutOffset(v)` stores exactly `v` clamped to
`[cut.min, cut.max]`, hence the stored offset stays inside the bounds; and
the orientation resynchronization also leaves the offset inside the new
bounds derived from the model box. -/
theorem setCutOffset_clamps (cut : CutState) (v : ℚ) (hmm : cut.min ≤ cut.max) :
    ((setCutOffset cut v).offset =
        (if v < cut.min then cut.min else if v > cut.max then cut.max else v)) ∧
    cut.min ≤ (setCutOffset cut v).offset ∧ (setCutOffset cut v).offset ≤ cut.max ∧
    (∀ bounds orientation opts, bounds.xMin ≤ bounds.xMax → bounds.zMin ≤ bounds.zMax →
      (syncCutRangeForOrientation bounds cut orientation opts).min ≤
          (syncCutRangeForOrientation bounds cut orientation opts).offset ∧
        (syncCutRangeForOrientation bounds cut orientation opts).offset ≤
          (syncCutRangeForOrientation bounds cut orientation opts).max) := by
  have hval : (setCutOffset cut v).offset = min (max v cut.min) cut.max := rfl
  refine ⟨?_, ?_, ?_, ?_⟩
  · rw [hval]
    by_cases h1 : v < cut.min
    · rw [if_pos h1, max_eq_right h1.le, min_eq_left hmm]
    · rw [if_neg h1, max_eq_left (not_lt.1 h1)]
      by_cases h2 : v > cut.max
      · rw [if_pos h2, min_eq_right h2.le]
      · rw [if_neg h2, min_eq_left (not_lt.1 h2)]
  · rw [hval]
    exact le_min (le_max_right v cut.min) hmm
  · rw [hval]
    exact min_le_right _ _
  · intro bounds orientation opts hx hz
    have hlohi : (if orientation = CutOrientation.horizontal then bounds.zMin
          else bounds.xMin) ≤
        (if orientation = CutOrientation.horizontal then bounds.zMax else bounds.xMax) := by
      by_cases ho : orientation = CutOrientation.horizontal
      · rw [if_pos ho, if_pos ho]; exact hz
      · rw [if_neg ho, if_neg ho]; exact hx
    constructor
    · exact le_max_left _ _
    · exact max_le hlohi (min_le_left _ _)

theorem setCutOffset_clamps_witness :
    ((cutDemoState false).min ≤ (cutDemoState false).max ∧
      (0 : ℚ) ≤ 10 ∧ (-3 : ℚ) ≤ 7) ∧
    (cutDemoState false).min ≤ (setCutOffset (cutDemoState false) 42).offset :=
  ⟨⟨by decide, by decide, by decide⟩,
    (setCutOffset_clamps (cutDemoState false) 42 (by decide)).2.1⟩

/-! ## Cut tool pointer drag (`CutTool.onPointerMove`) -/

structure CutPointerEvent where
  clientX : ℚ
  clientY : ℚ
  buttons : ℕ
  shiftKey : Bool
  altKey : Bool

structure CutToolState where
  dragging : Bool
  dragStartPx : ℚ
  dragStartOffset : ℚ

/-- `CutTool.onPointerMove`: ignores the event when not dragging, stops the
drag when the primary button is no longer held (`(ev.buttons & 1) === 0`),
and otherwise maps the pixel delta along the screen axis matching the cut
orientation (clientY for horizontal with negation, clientX for vertical)
through `(max − min) / viewport-span` into the offset passed to
`app.setCutOffset` — returned here as the second component. -/
def cutToolOnPointerMove (tool : CutToolState) (cut : CutState)
    (ev : CutPointerEvent) (viewportWidth viewportHeight : ℚ) :
    CutToolState × Option ℚ :=
  if tool.dragging = false then (tool, none)
  else if ev.buttons % 2 = 0 then ({ tool with dragging := false }, none)
  else
    let range := max (1 / 10000) (cut.max - cut.min)
    let pxNow := if cut.orientation = CutOrientation.horizontal then ev.clientY else ev.clientX
    let deltaPx := pxNow - tool.dragStartPx
    let viewportSpan :=
      if cut.orientation = CutOrientation.horizontal then viewportHeight else viewportWidth
    let safeViewport := max 1 viewportSpan
    let normalized :=
      if cut.orientation = CutOrientation.horizontal then -deltaPx / safeViewport
      else deltaPx / safeViewport
    (tool, some (tool.dragStartOffset + normalized * range))

/-- Modelled from the spec: the drag-offset formula of the claim, with a
0.78 base sensitivity and a modifier-key precision multiplier of 0.28 under
Shift, 1.75 under Alt and 1 otherwise. -/
def cutToolClaimedOffset (tool : CutToolState) (cut : CutState)
    (ev : CutPointerEvent) (viewportWidth viewportHeight : ℚ) : ℚ :=
  let pxNow := if cut.orientation = CutOrientation.horizontal then ev.clientY else ev.clientX
  let deltaPx := pxNow - tool.dragStartPx
  let viewportSpan :=
    if cut.orientation = CutOrientation.horizontal then viewportHeight else viewportWidth
  let signed := if cut.orientation = CutOrientation.horizontal then -deltaPx else deltaPx
  let precision : ℚ := if ev.shiftKey then 28 / 100 else if ev.altKey then 175 / 100 else 1
  tool.dragStartOffset + signed / viewportSpan * (cut.max - cut.min) * (78 / 100) * precision

/-- A concrete mid-drag state: drag started at pixel 0 with offset 0. -/
def cutToolDemoTool : CutToolState where
  dragging := true
  dragStartPx := 0
  dragStartOffset := 0

/-- A concrete pointer-move 100 px up with the primary button held and no
modifier keys. -/
def cutToolDemoEvent : CutPointerEvent where
  clientX := 0
  clientY := -100
  buttons := 1
  shiftKey := false
  altKey := false

/-- C9 counterexample: on the horizontal cut of the concrete scenario
(range 0..10, viewport height 1000) the code requests offset 1, while the
claimed formula with its 0.78 base sensitivity requests 0.78. -/
theorem cutTool_claimed_formula_false :
    (cutToolOnPointerMove cutToolDemoTool (cutDemoState false) cutToolDemoEvent
        800 1000).2 = some 1 ∧
    cutToolClaimedOffset cutToolDemoTool (cutDemoState false) cutToolDemoEvent
        800 1000 = 78 / 100 ∧
    (1 : ℚ) ≠ 78 / 100 := by
  refine ⟨?_, ?_, by norm_num⟩
  · rw [cutToolOnPointerMove]
    norm_num [cutToolDemoTool, cutToolDemoEvent, cutDemoState]
  · rw [cutToolClaimedOffset]
    norm_num [cutToolDemoTool, cutToolDemoEvent, cutDemoState]

/-- C9 (amended): during an active cut drag with the primary button held,
the requested offset equals the drag-start offset plus the pixel delta along
the screen axis matching the cut orientation (clientY for horizontal,
clientX for vertical, with vertical-screen deltas negated), divided by the
viewport span in that axis and multiplied by `(max − min)` — with no base
sensitivity and no modifier-key multiplier.  (The range is floored at 0.0001
and the viewport span at 1; the hypotheses put us above those floors.) -/
theorem cutTool_onPointerMove_offset (tool : CutToolState) (cut : CutState)
    (ev : CutPointerEvent) (viewportWidth viewportHeight : ℚ)
    (hdrag : tool.dragging = true)
    (hbtn : ev.buttons % 2 = 1)
    (hrange : 1 / 10000 ≤ cut.max - cut.min)
    (hvp : 1 ≤ (if cut.orientation = CutOrientation.horizontal then viewportHeight
      else viewportWidth)) :
    (cutToolOnPointerMove tool cut ev viewportWidth viewportHeight).2 =
      some (tool.dragStartOffset +
        (if cut.orientation = CutOrientation.horizontal then
          -(ev.clientY - tool.dragStartPx) / viewportHeight
         else (ev.clientX - tool.dragStartPx) / viewportWidth) * (cut.max - cut.min)) := by
  rw [cutToolOnPointerMove]
  rw [if_neg (by rw [hdrag]; simp)]
  rw [if_neg (by rw [hbtn]; simp)]
  by_cases ho : cut.orientation = CutOrientation.horizontal
  · have hvp2 : (1 : ℚ) ≤ viewportHeight := by rw [if_pos ho] at hvp; exact hvp
    simp only [ho, if_pos, if_true, max_eq_right hrange, max_eq_right hvp2]
  · have hvp2 : (1 : ℚ) ≤ viewportWidth := by rw [if_neg ho] at hvp; exact hvp
    simp only [ho, if_false, max_eq_right hrange, max_eq_right hvp2]

theorem cutTool_onPointerMove_offset_witness :
    (cutToolDemoTool.dragging = true ∧ cutToolDemoEvent.buttons % 2 = 1 ∧
      (1 / 10000 : ℚ) ≤ (cutDemoState false).max - (cutDemoState false).min ∧
      (1 : ℚ) ≤ (if (cutDemoState false).orientation = CutOrientation.horizontal
        then 1000 else 800)) ∧
    (cutToolOnPointerMove cutToolDemoTool (cutDemoState false) cutToolDemoEvent
        800 1000).2 =
      some (cutToolDemoTool.dragStartOffset +
        (if (cutDemoState false).orientation = CutOrientation.horizontal then
          -(cutToolDemoEvent.clientY - cutToolDemoTool.dragStartPx) / 1000
         else (cutToolDemoEvent.clientX - cutToolDemoTool.dragStartPx) / 800) *
          ((cutDemoState false).max - (cutDemoState false).min)) :=
  ⟨⟨rfl, rfl, by norm_num [cutDemoState], by norm_num [cutDemoState]⟩,
    cutTool_onPointerMove_offset cutToolDemoTool (cutDemoState false) cutToolDemoEvent
      800 1000 rfl rfl (by norm_num [cutDemoState]) (by norm_num [cutDemoState])⟩

/-! ## Tool state machine (`ToolManager`)

Exactly one tool is active; `setActive` looks the next tool up in the
registry, returns early when it is already active, otherwise awaits the
current tool's disable hook before the next tool's enable hook and applies
the next tool's cursor.  Hook invocations are embedded as an event trace. -/

inductive ToolId where
  | select
  | measure
  | cut
  | section
  | transform
deriving DecidableEq

structure RegisteredTool where
  id : ToolId
  cursor : String
deriving DecidableEq

structure ToolManagerState where
  tools : List RegisteredTool
  active : Option RegisteredTool
  cursor : String

inductive ToolHookEvent where
  | disabled (id : ToolId)
  | enabled (id : ToolId)
deriving DecidableEq

/-- `ToolManager.setActive(id)`: throws when the tool is not registered,
returns without hooks when it is already active, and otherwise emits the
current tool's disable hook (if any) followed by the next tool's enable
hook, storing the next tool as active and applying its cursor. -/
def tmSetActive (tm : ToolManagerState) (id : ToolId) :
    Except String (ToolManagerState × List ToolHookEvent) :=
  match tm.tools.find? (fun t => t.id == id) with
  | none => Except.error "Tool not registered."
  | some next =>
    if tm.active.any (fun a => a.id == id) then Except.ok (tm, [])
    else
      Except.ok
        ({ tm with active := some next, cursor := next.cursor },
          (match tm.active with
            | some a => [ToolHookEvent.disabled a.id]
            | none => []) ++ [ToolHookEvent.enabled next.id])

/-- Pointer and key events are all forwarded to `this._active?...`; the
receiving tool, if any, is the active one. -/
def tmEventTarget (tm : ToolManagerState) : Option ToolId :=
  tm.active.map (fun a => a.id)

/-- C8: `setActive(toolId)` on the already-active tool invokes no enable or
disable hooks and leaves the state unchanged; on a different registered
tool it emits the active tool's disable hook strictly before the next
tool's enable hook (and just the enable hook when no tool was active),
after which the next tool is active and is the receiver of subsequent
pointer and key events. -/
theorem toolManager_setActive_correct (tm : ToolManagerState) (id : ToolId)
    (next : RegisteredTool)
    (hfind : tm.tools.find? (fun t => t.id == id) = some next) :
    (∀ a, tm.active = some a → a.id = id → tmSetActive tm id = Except.ok (tm, [])) ∧
    (∀ a, tm.active = some a → a.id ≠ id →
      tmSetActive tm id =
        Except.ok ({ tm with active := some next, cursor := next.cursor },
          [ToolHookEvent.disabled a.id, ToolHookEvent.enabled next.id]) ∧
      tmEventTarget { tm with active := some next, cursor := next.cursor } = some id) ∧
    (tm.active = none →
      tmSetActive tm id =
        Except.ok ({ tm with active := some next, cursor := next.cursor },
          [ToolHookEvent.enabled next.id]) ∧
      tmEventTarget { tm with active := some next, cursor := next.cursor } = some id) := by
  have hnextid : next.id = id := by
    have := List.find?_some hfind
    simpa using this
  have hred : tmSetActive tm id =
      (if tm.active.any (fun a => a.id == id) then Except.ok (tm, [])
       else
        Except.ok
          ({ tm with active := some next, cursor := next.cursor },
            (match tm.active with
              | some a => [ToolHookEvent.disabled a.id]
              | none => []) ++ [ToolHookEvent.enabled next.id])) := by
    rw [tmSetActive, hfind]
  refine ⟨?_, ?_, ?_⟩
  · intro a ha haid
    rw [hred, ha]
    rw [if_pos (by simp [Option.any, haid])]
  · intro a ha haid
    constructor
    · rw [hred, ha]
      rw [if_neg (by simp [Option.any, haid])]
      rfl
    · rw [tmEventTarget]
      simp [hnextid]
  · intro ha
    constructor
    · rw [hred, ha]
      rw [if_neg (by simp [Option.any])]
      rfl
    · rw [tmEventTarget]
      simp [hnextid]

/-- A two-tool registry with the select tool active. -/
def tmDemoState : ToolManagerState where
  tools := [⟨ToolId.select, "default"⟩, ⟨ToolId.cut, "crosshair"⟩]
  active := some ⟨ToolId.select, "default"⟩
  cursor := "default"

theorem toolManager_setActive_correct_witness :
    (tmDemoState.tools.find? (fun t => t.id == ToolId.select) =
        some ⟨ToolId.select, "default"⟩ ∧
      tmDemoState.active = some ⟨ToolId.select, "default"⟩) ∧
    tmSetActive tmDemoState ToolId.select = Except.ok (tmDemoState, []) :=
  ⟨⟨by decide, rfl⟩,
    (toolManager_setActive_correct tmDemoState ToolId.select ⟨ToolId.select, "default"⟩
        (by decide)).1 ⟨ToolId.select, "default"⟩ rfl rfl⟩

/-! ## Hover request-serial protocol (`hoverFromPointerEvent`)

Every asynchronous hover hit-test increments and captures the
monotonically increasing request serial; when the raycast resolves, the
handler discards its own result if the serial has advanced.  The raycast
suspension is the interleaving point; the post-raycast body (including the
highlight call) is embedded as one resolution step, so the second serial
check after the highlight await collapses into the first. -/

structure SelKey where
  modelId : String
  localId : ℕ
deriving DecidableEq

/-- A raycast outcome: a GLB scene object, or a fragments hit whose model and
local ids may individually be absent. -/
inductive HoverHit where
  | glb (objectId : ℕ)
  | frag (modelId : Option String) (localId : Option ℕ)
deriving DecidableEq

structure HoverState where
  serial : ℕ
  hovered : Option SelKey
  glbHovered : Option ℕ
  hasHoverHighlight : Bool
  fragsActive : Bool
deriving DecidableEq

inductive HighlightOp where
  | clearHover
  | applyHover (key : SelKey)
deriving DecidableEq

/-- `clearHover()`: bumps the serial, clears the hovered key and the GLB
hover, and clears the hover highlight (issuing the highlighter clear only
when fragments are active and a highlight exists). -/
def clearHoverStep (s : HoverState) : HoverState × List HighlightOp :=
  let s1 := { s with serial := s.serial + 1, hovered := none, glbHovered := none }
  if s1.hasHoverHighlight = false then (s1, [])
  else if s1.fragsActive = false then ({ s1 with hasHoverHighlight := false }, [])
  else ({ s1 with hasHoverHighlight := false }, [HighlightOp.clearHover])

/-- `hoverFromPointerEvent`, issue half: `++this.hoverRequestSerial` and
capture it. -/
def hoverIssue (s : HoverState) : HoverState × ℕ :=
  ({ s with serial := s.serial + 1 }, s.serial + 1)

/-- `hoverFromPointerEvent`, resolution half (after `await raycast`): the
stale check against the captured serial, then the miss/GLB/fragment cases
of the source. -/
def hoverResolve (s : HoverState) (requestId : ℕ) (hit : Option HoverHit) :
    HoverState × List HighlightOp :=
  if requestId ≠ s.serial then (s, [])
  else
    let prev := s.hovered
    match hit with
    | none =>
      if prev ≠ none ∨ s.hasHoverHighlight then clearHoverStep s else (s, [])
    | some (HoverHit.glb obj) =>
      let cleared := if prev ≠ none ∨ s.hasHoverHighlight then clearHoverStep s else (s, [])
      ({ cleared.1 with hovered := none, glbHovered := some obj }, cleared.2)
    | some (HoverHit.frag mid lid) =>
      match mid, lid with
      | some m, some l =>
        let key : SelKey := ⟨m, l⟩
        if prev = some key then (s, [])
        else
          ({ s with glbHovered := none, hovered := some key, hasHoverHighlight := true },
            [HighlightOp.applyHover key])
      | _, _ =>
        if prev ≠ none ∨ s.hasHoverHighlight then clearHoverStep s else (s, [])

/-- C4: a hover resolution whose captured serial is no longer current
discards its result completely — no hovered-key update, no highlight
operation, no state change at all; and in the two-overlapping-requests
scenario where the older request resolves after the newer one, the
displayed hover state is the newer request's result and the older
resolution is a no-op. -/
theorem hover_serial_discards_stale (s : HoverState) (rid : ℕ) (hit : Option HoverHit)
    (s0 : HoverState) (hit1 : Option HoverHit) (m : String) (l : ℕ)
    (hstale : rid ≠ s.serial)
    (hprev : s0.hovered ≠ some ⟨m, l⟩) :
    hoverResolve s rid hit = (s, []) ∧
    ((hoverResolve (hoverIssue (hoverIssue s0).1).1 (hoverIssue (hoverIssue s0).1).2
          (some (HoverHit.frag (some m) (some l)))).1.hovered = some ⟨m, l⟩ ∧
      hoverResolve (hoverResolve (hoverIssue (hoverIssue s0).1).1
            (hoverIssue (hoverIssue s0).1).2
            (some (HoverHit.frag (some m) (some l)))).1
          (hoverIssue s0).2 hit1 =
        ((hoverResolve (hoverIssue (hoverIssue s0).1).1 (hoverIssue (hoverIssue s0).1).2
            (some (HoverHit.frag (some m) (some l)))).1, [])) := by
  constructor
  · rw [hoverResolve, if_pos hstale]
  · have hs2 : (hoverIssue (hoverIssue s0).1).1 =
        { s0 with serial := s0.serial + 1 + 1 } := rfl
    have hr2 : (hoverIssue (hoverIssue s0).1).2 = s0.serial + 1 + 1 := rfl
    have hr1 : (hoverIssue s0).2 = s0.serial + 1 := rfl
    have hres : hoverResolve (hoverIssue (hoverIssue s0).1).1
        (hoverIssue (hoverIssue s0).1).2 (some (HoverHit.frag (some m) (some l))) =
        ({ s0 with
            serial := s0.serial + 1 + 1
            hovered := some ⟨m, l⟩
            glbHovered := none
            hasHoverHighlight := true },
          [HighlightOp.applyHover ⟨m, l⟩]) := by
      rw [hs2, hr2, hoverResolve]
      rw [if_neg (by simp)]
      simp [hprev]
    rw [hres]
    refine ⟨rfl, ?_⟩
    rw [hoverResolve,
      if_pos (by rw [hr1]; show s0.serial + 1 ≠ s0.serial + 1 + 1; omega)]

/-- An idle hover state with fragments loaded. -/
def hoverDemoState : HoverState where
  serial := 0
  hovered := none
  glbHovered := none
  hasHoverHighlight := false
  fragsActive := true

theorem hover_serial_discards_stale_witness :
    ((5 : ℕ) ≠ hoverDemoState.serial ∧
      hoverDemoState.hovered ≠ some ⟨"m", 1⟩) ∧
    hoverResolve hoverDemoState 5 none = (hoverDemoState, []) :=
  ⟨⟨by decide, by decide⟩,
    (hover_serial_discards_stale hoverDemoState 5 none hoverDemoState none "m" 1
      (by decide) (by decide)).1⟩

/-! ## Property-filter JSON export and import

`exportPropertyFilterJson` serialises five fields with `JSON.stringify`;
`importPropertyFilterJson` parses with `JSON.parse`, rejects non-record
payloads, validates each field independently and merges only the valid
fields into the store state.  JSON documents are embedded as a `Json` value
type; `JSON.parse ∘ JSON.stringify` is the identity on these values, so the
round trip is stated at the value level, and a failed `JSON.parse` is the
`none` input case.  Note `isRecord` is the JS check
`typeof v === "object" && v !== null`, which JS arrays also satisfy. -/

inductive Json where
  | null
  | bool (b : Bool)
  | num (q : ℚ)
  | str (s : String)
  | arr (items : List Json)
  | obj (fields : List (String × Json))

/-- `isRecord(v)`: `typeof v === "object" && v !== null`.  In JS both plain
objects and arrays have `typeof "object"`. -/
def isRecordJs : Json → Bool
  | Json.obj _ => true
  | Json.arr _ => true
  | _ => false

/-- JS property access `parsed.name`: a lookup on objects, `undefined` on
everything else (the filter field names are not array properties). -/
def jsGet : Json → String → Option Json
  | Json.obj fields, name => (fields.find? (fun p => p.1 == name)).map Prod.snd
  | _, _ => none

inductive FilterOperator where
  | contains
  | equals
  | notEquals
  | gt
  | lt
  | gte
  | lte
deriving DecidableEq

/-- The wire spelling of each operator. -/
def operatorToString : FilterOperator → String
  | FilterOperator.contains => "contains"
  | FilterOperator.equals => "equals"
  | FilterOperator.notEquals => "not_equals"
  | FilterOperator.gt => "gt"
  | FilterOperator.lt => "lt"
  | FilterOperator.gte => "gte"
  | FilterOperator.lte => "lte"

/-- The chained `parsed.operator === "contains" || ... || === "lte"` check:
only the exact string values pass (`undefined` and non-strings never do). -/
def jsOperatorCheck : Option Json → Option FilterOperator
  | some (Json.str "contains") => some FilterOperator.contains
  | some (Json.str "equals") => some FilterOperator.equals
  | some (Json.str "not_equals") => some FilterOperator.notEquals
  | some (Json.str "gt") => some FilterOperator.gt
  | some (Json.str "lt") => some FilterOperator.lt
  | some (Json.str "gte") => some FilterOperator.gte
  | some (Json.str "lte") => some FilterOperator.lte
  | _ => none

inductive FilterMode where
  | showOnly
  | colorize
deriving DecidableEq

/-- The wire spelling of each mode (`showOnly` is serialised as "show"). -/
def modeToString : FilterMode → String
  | FilterMode.showOnly => "show"
  | FilterMode.colorize => "colorize"

/-- `parsed.mode === "show" || parsed.mode === "colorize"`. -/
def jsModeCheck : Option Json → Option FilterMode
  | some (Json.str "show") => some FilterMode.showOnly
  | some (Json.str "colorize") => some FilterMode.colorize
  | _ => none

/-- The store's `propertyFilter` state. -/
structure PropertyFilterState where
  pset : String
  property : String
  operator : FilterOperator
  value : String
  mode : FilterMode
  active : Bool
deriving DecidableEq

/-- `exportPropertyFilterJson()`: the JSON object `JSON.stringify` receives
(pset, property, operator, value, mode — `active` is not exported). -/
def exportPropertyFilterJson (f : PropertyFilterState) : Json :=
  Json.obj
    [("pset", Json.str f.pset),
      ("property", Json.str f.property),
      ("operator", Json.str (operatorToString f.operator)),
      ("value", Json.str f.value),
      ("mode", Json.str (modeToString f.mode))]

/-- `typeof x === "string" ? x : undefined`, applied to a property-access
result: only a present string field passes. -/
def jsStringField : Option Json → Option String
  | some (Json.str s) => some s
  | _ => none

/-- `importPropertyFilterJson(raw)`: `none` stands for a `JSON.parse` throw
(re-thrown with an `Invalid filter JSON:` prefix); a non-record payload
throws `Invalid filter JSON payload.`; otherwise every field is validated
independently and the valid ones are merged over the prior filter state via
`setPropertyFilter` (the store spreads the partial object over the prior
state). -/
def importPropertyFilterJson (parsed : Option Json) (prior : PropertyFilterState) :
    Except String PropertyFilterState :=
  match parsed with
  | none => Except.error "Invalid filter JSON: parse error"
  | some p =>
    if isRecordJs p = false then Except.error "Invalid filter JSON payload."
    else
      let f1 := match jsStringField (jsGet p "pset") with
        | some s => { prior with pset := s }
        | none => prior
      let f2 := match jsStringField (jsGet p "property") with
        | some s => { f1 with property := s }
        | none => f1
      let f3 := match jsOperatorCheck (jsGet p "operator") with
        | some op => { f2 with operator := op }
        | none => f2
      let f4 := match jsStringField (jsGet p "value") with
        | some s => { f3 with value := s }
        | none => f3
      let f5 := match jsModeCheck (jsGet p "mode") with
        | some md => { f4 with mode := md }
        | none => f4
      Except.ok f5

/-- C6: re-importing an exported property filter reproduces the filter state
exactly — pset, property, operator, value and mode unchanged (and the
untouched `active` flag too). -/
theorem propertyFilter_export_import_roundtrip (f : PropertyFilterState) :
    importPropertyFilterJson (some (exportPropertyFilterJson f)) f = Except.ok f := by
  cases f with
  | mk pset property operator value mode active =>
    cases operator <;> cases mode <;>
      simp [importPropertyFilterJson, exportPropertyFilterJson, isRecordJs, jsGet,
        jsStringField, jsOperatorCheck, jsModeCheck, operatorToString, modeToString,
        List.find?]

/-- The store's initial property-filter state. -/
def defaultPropertyFilter : PropertyFilterState where
  pset := ""
  property := ""
  operator := FilterOperator.contains
  value := ""
  mode := FilterMode.showOnly
  active := false

/-- C7 counterexample: a JSON array is not a JSON object, yet importing the
payload `[]` does not throw — `typeof [] === "object"` passes the record
check, no field validates, and the import reports success with the state
unchanged. -/
theorem import_array_payload_succeeds :
    importPropertyFilterJson (some (Json.arr [])) defaultPropertyFilter =
      Except.ok defaultPropertyFilter := rfl

/-- C7 (amended): import throws a descriptive error on invalid JSON syntax
and on payloads that are neither objects nor arrays, leaving the prior state
untouched; an array payload passes the JS record check and imports as an
object with no recognised fields (success, no field changed); an object
payload has each field validated independently — a present, correctly typed
and enum-valid field is applied, every other field keeps its prior value,
and the `active` flag is never touched. -/
theorem importPropertyFilter_validation (prior : PropertyFilterState) (j : Json)
    (items : List Json) (fields : List (String × Json))
    (hj : isRecordJs j = false) :
    importPropertyFilterJson none prior =
        Except.error "Invalid filter JSON: parse error" ∧
    importPropertyFilterJson (some j) prior =
        Except.error "Invalid filter JSON payload." ∧
    importPropertyFilterJson (some (Json.arr items)) prior = Except.ok prior ∧
    importPropertyFilterJson (some (Json.obj fields)) prior =
      Except.ok
        { pset := (jsStringField (jsGet (Json.obj fields) "pset")).getD prior.pset
          property :=
            (jsStringField (jsGet (Json.obj fields) "property")).getD prior.property
          operator :=
            (jsOperatorCheck (jsGet (Json.obj fields) "operator")).getD prior.operator
          value := (jsStringField (jsGet (Json.obj fields) "value")).getD prior.value
          mode := (jsModeCheck (jsGet (Json.obj fields) "mode")).getD prior.mode
          active := prior.active } := by
  have hsome : ∀ (p : Json),
      importPropertyFilterJson (some p) prior =
        (if isRecordJs p = false then Except.error "Invalid filter JSON payload."
         else
          let f1 := match jsStringField (jsGet p "pset") with
            | some s => { prior with pset := s }
            | none => prior
          let f2 := match jsStringField (jsGet p "property") with
            | some s => { f1 with property := s }
            | none => f1
          let f3 := match jsOperatorCheck (jsGet p "operator") with
            | some op => { f2 with operator := op }
            | none => f2
          let f4 := match jsStringField (jsGet p "value") with
            | some s => { f3 with value := s }
            | none => f3
          let f5 := match jsModeCheck (jsGet p "mode") with
            | some md => { f4 with mode := md }
            | none => f4
          Except.ok f5) := fun _ => rfl
  refine ⟨rfl, ?_, ?_, ?_⟩
  · rw [hsome j, if_pos hj]
  · rfl
  · rw [hsome (Json.obj fields), if_neg (by simp [isRecordJs])]
    rcases h1 : jsStringField (jsGet (Json.obj fields) "pset") with _ | s1 <;>
      rcases h2 : jsStringField (jsGet (Json.obj fields) "property") with _ | s2 <;>
        rcases h3 : jsOperatorCheck (jsGet (Json.obj fields) "operator") with _ | op3 <;>
          rcases h4 : jsStringField (jsGet (Json.obj fields) "value") with _ | s4 <;>
            rcases h5 : jsModeCheck (jsGet (Json.obj fields) "mode") with _ | md5 <;>
              simp [h1, h2, h3, h4, h5]

theorem importPropertyFilter_validation_witness :
    isRecordJs (Json.str "nope") = false ∧
    importPropertyFilterJson none defaultPropertyFilter =
      Except.error "Invalid filter JSON: parse error" :=
  ⟨rfl,
    (importPropertyFilter_validation defaultPropertyFilter (Json.str "nope") [] []
      rfl).1⟩

/-! ## Measurement Engine (`MeasurementManager`)

Measurements are kept in a JS `Map` from generated id to the stored pair of
world-space points; `list()` recomputes the meters value from the stored
points on every call; `remove(id)` returns silently when the id is unknown.
The `Map` is embedded as an association list with unique keys (`Map.set`
replaces in place, `Map.delete` removes the entry); `createId` produces an
opaque fresh string, passed here as an argument.  World coordinates are `ℝ`,
so the stated meters equality is exact (subsuming the 3-decimal claim); the
non-finite formatting path is embedded through `JsNum`. -/

structure Vec3 where
  x : ℝ
  y : ℝ
  z : ℝ

/-- `THREE.Vector3.distanceTo`: the Euclidean distance. -/
noncomputable def distanceTo (a b : Vec3) : ℝ :=
  Real.sqrt ((a.x - b.x) ^ 2 + (a.y - b.y) ^ 2 + (a.z - b.z) ^ 2)

/-- What the manager stores per id (the rendering resources are owned by the
scene and carry no state the claims depend on). -/
structure MeasureEntry where
  start : Vec3
  endPoint : Vec3

structure MeasurementItem where
  id : String
  start : Vec3
  endPoint : Vec3
  meters : ℝ

structure MeasurementManagerState where
  items : List (String × MeasureEntry)

/-- `Map.set(id, e)`: replace the entry in place when the key exists,
append otherwise. -/
def mapSet (items : List (String × MeasureEntry)) (id : String) (e : MeasureEntry) :
    List (String × MeasureEntry) :=
  if items.any (fun p => p.1 == id) then
    items.map (fun p => if p.1 = id then (id, e) else p)
  else items ++ [(id, e)]

/-- `add(start, end)`: store the cloned pair under the fresh id. -/
def mmAdd (s : MeasurementManagerState) (newId : String) (start endPoint : Vec3) :
    MeasurementManagerState :=
  { items := mapSet s.items newId ⟨start, endPoint⟩ }

/-- `list()`: one item per entry, meters recomputed from the stored points. -/
noncomputable def mmList (s : MeasurementManagerState) : List MeasurementItem :=
  s.items.map (fun pr =>
    ⟨pr.1, pr.2.start, pr.2.endPoint, distanceTo pr.2.start pr.2.endPoint⟩)

/-- `remove(id)`: `Map.delete` the entry; a second call finds nothing and
returns without effect (and without throwing — the function is total). -/
def mmRemove (s : MeasurementManagerState) (id : String) : MeasurementManagerState :=
  { items := s.items.filter (fun p => !(p.1 == id)) }

/-- A JS number: finite, or one of the non-finite values. -/
inductive JsNum where
  | finite (x : ℝ)
  | nan
  | posInf
  | negInf

def JsNum.isFinite : JsNum → Bool
  | JsNum.finite _ => true
  | _ => false

/-- The rendered label text: `metersText x` stands for
`x.toFixed(3) + " m"`, `dash` for the placeholder "-". -/
inductive MeasureLabel where
  | dash
  | metersText (value : ℝ)

/-- `formatMeters(meters)`: the dash placeholder for non-finite input,
otherwise the 3-decimal meters text. -/
def formatMeters (j : JsNum) : MeasureLabel :=
  if j.isFinite = false then MeasureLabel.dash
  else
    match j with
    | JsNum.finite x => MeasureLabel.metersText x
    | _ => MeasureLabel.dash

/-- C5: after `add(P1, P2)` the list contains an item under the returned id
whose meters value is the Euclidean distance between P1 and P2, recomputed
from the stored points (exact here, hence correct to any decimal
precision); after `remove(id)` the list no longer contains the id; a second
`remove(id)` is a no-op (and cannot throw, being total); and a non-finite
distance formats as the placeholder dash instead of throwing. -/
theorem measurement_engine_correct :
    (∀ (s : MeasurementManagerState) (newId : String) (p1 p2 : Vec3),
      ∃ item ∈ mmList (mmAdd s newId p1 p2),
        item.id = newId ∧ item.meters = distanceTo p1 p2 ∧
          item.start = p1 ∧ item.endPoint = p2) ∧
    (∀ (s : MeasurementManagerState) (id : String),
      ∀ item ∈ mmList (mmRemove s id), item.id ≠ id) ∧
    (∀ (s : MeasurementManagerState) (id : String),
      mmRemove (mmRemove s id) id = mmRemove s id) ∧
    (∀ j : JsNum, j.isFinite = false → formatMeters j = MeasureLabel.dash) := by
  refine ⟨?_, ?_, ?_, ?_⟩
  · intro s newId p1 p2
    have hmem : (newId, (⟨p1, p2⟩ : MeasureEntry)) ∈ mapSet s.items newId ⟨p1, p2⟩ := by
      unfold mapSet
      by_cases hany : s.items.any (fun p => p.1 == newId)
      · rw [if_pos hany]
        obtain ⟨q, hq, hq1⟩ := List.any_eq_true.1 hany
        rw [beq_iff_eq] at hq1
        exact List.mem_map.2 ⟨q, hq, by rw [if_pos hq1]⟩
      · rw [if_neg hany]
        exact List.mem_append_right _ (List.mem_singleton.2 rfl)
    refine ⟨⟨newId, p1, p2, distanceTo p1 p2⟩, ?_, rfl, rfl, rfl, rfl⟩
    exact List.mem_map.2 ⟨(newId, ⟨p1, p2⟩), hmem, rfl⟩
  · intro s id item hitem
    obtain ⟨pr, hpr, hpr2⟩ := List.mem_map.1 hitem
    have hne := List.of_mem_filter hpr
    rw [← hpr2]
    intro hc
    rw [show pr.1 = id from hc] at hne
    simp at hne
  · intro s id
    unfold mmRemove
    congr 1
    rw [List.filter_filter]
    refine List.filter_congr (fun p _ => ?_)
    rw [Bool.and_self]
  · intro j h
    cases j with
    | finite x => simp [JsNum.isFinite] at h
    | nan => rfl
    | posInf => rfl
    | negInf => rfl

theorem measurement_engine_correct_witness :
    JsNum.nan.isFinite = false ∧ formatMeters JsNum.nan = MeasureLabel.dash :=
  ⟨rfl, measurement_engine_correct.2.2.2 JsNum.nan rfl⟩

/-! ## Section box clip planes (`SectionManager.updateBoxPlanes`)

The box gizmo is a unit cube under a world transform composed of a position,
a rotation and a non-uniform scale (`THREE.Matrix4.compose`, whose upper-left
3×3 block is `R · diag(scale)`).  For each of the 6 face-center points and
inward normals, the point is pushed through the world matrix and the normal
through the world matrix's normal matrix (inverse-transpose of the upper
3×3; a singular input yields the zero matrix both in three.js and in
Mathlib's `Matrix.inv`), then normalised, and the plane is built with
`setFromNormalAndCoplanarPoint`. -/

abbrev M33 := Matrix (Fin 3) (Fin 3) ℝ

abbrev W3 := Fin 3 → ℝ

/-- The 6 local face-center points of the unit cube (+X, −X, +Y, −Y, +Z, −Z). -/
noncomputable def sectLocalPoints : Fin 6 → W3
  | 0 => ![1 / 2, 0, 0]
  | 1 => ![-1 / 2, 0, 0]
  | 2 => ![0, 1 / 2, 0]
  | 3 => ![0, -1 / 2, 0]
  | 4 => ![0, 0, 1 / 2]
  | 5 => ![0, 0, -1 / 2]

/-- The matching inward face normals. -/
noncomputable def sectInwardNormals : Fin 6 → W3
  | 0 => ![-1, 0, 0]
  | 1 => ![1, 0, 0]
  | 2 => ![0, -1, 0]
  | 3 => ![0, 1, 0]
  | 4 => ![0, 0, -1]
  | 5 => ![0, 0, 1]

/-- Upper-left 3×3 block of the box's world matrix: rotation times the
diagonal scale. -/
noncomputable def boxUpper (R : M33) (scale : W3) : M33 :=
  R * Matrix.diagonal scale

/-- `THREE.Matrix3.getNormalMatrix(m)`: inverse of the upper 3×3, transposed. -/
noncomputable def normalMatrix (W : M33) : M33 :=
  W⁻¹.transpose

/-- `THREE.Vector3.normalize`: divide by `length || 1`. -/
noncomputable def normalizeV (v : W3) : W3 :=
  (if Real.sqrt (Matrix.dotProduct v v) = 0 then 1
   else Real.sqrt (Matrix.dotProduct v v))⁻¹ • v

structure ClipPlane where
  normal : W3
  constant : ℝ

/-- `THREE.Plane.setFromNormalAndCoplanarPoint(n, p)`: normal `n`,
constant `−(p · n)`. -/
noncomputable def setFromNormalAndCoplanarPoint (n p : W3) : ClipPlane :=
  ⟨n, -(Matrix.dotProduct p n)⟩

/-- One iteration of the `updateBoxPlanes` loop: transform the face point by
the world matrix, the (possibly negated) inward normal by the normal matrix,
normalise, and build the plane. -/
noncomputable def updateBoxPlane (R : M33) (scale t : W3) (invert : Bool)
    (i : Fin 6) : ClipPlane :=
  let W := boxUpper R scale
  let invertMul : ℝ := if invert then -1 else 1
  let point := W.mulVec (sectLocalPoints i) + t
  let normal := normalizeV ((normalMatrix W).mulVec (invertMul • sectInwardNormals i))
  setFromNormalAndCoplanarPoint normal point

inductive SectionMode where
  | box
  | plane
deriving DecidableEq

structure MaterialClipState where
  hasClippingPlanes : Bool
  clipIntersection : Bool
deriving DecidableEq

/-- `applyToMaterials()`: every registered material receives the active
planes reference (or null when empty) and
`clipIntersection = (mode === "box" && invert)`. -/
def applyToMaterials (mode : SectionMode) (invert : Bool)
    (activePlanesNonempty : Bool) (mats : List MaterialClipState) :
    List MaterialClipState :=
  mats.map (fun _ =>
    { hasClippingPlanes := activePlanesNonempty
      clipIntersection := decide (mode = SectionMode.box) && invert })

theorem mulVec_dot_self {R : M33} (hR : R.transpose * R = 1) (v : W3) :
    Matrix.dotProduct (R.mulVec v) (R.mulVec v) = Matrix.dotProduct v v := by
  rw [Matrix.dotProduct_mulVec, ← Matrix.mulVec_transpose, Matrix.mulVec_mulVec, hR,
    Matrix.one_mulVec]

theorem normalizeV_smul_unit (k : ℝ) (hk : 0 < k) (w : W3)
    (hw : Matrix.dotProduct w w = 1) : normalizeV (k • w) = w := by
  unfold normalizeV
  have hdot : Matrix.dotProduct (k • w) (k • w) = k ^ 2 := by
    rw [Matrix.smul_dotProduct, Matrix.dotProduct_smul, hw]
    simp [sq]
  rw [hdot, Real.sqrt_sq hk.le, if_neg hk.ne', smul_smul, inv_mul_cancel₀ hk.ne', one_smul]

theorem normalMatrix_boxUpper (R : M33) (scale : W3) (hR : R.transpose * R = 1)
    (hs : ∀ k, 0 < scale k) :
    normalMatrix (boxUpper R scale) = R * Matrix.diagonal (fun k => (scale k)⁻¹) := by
  have hRinv : R⁻¹ = R.transpose := Matrix.inv_eq_left_inv hR
  have hSinv : (Matrix.diagonal scale)⁻¹ = Matrix.diagonal (fun k => (scale k)⁻¹) :=
    Matrix.inv_eq_right_inv (by
      rw [Matrix.diagonal_mul_diagonal,
        show (fun i => scale i * (scale i)⁻¹) = fun _ => (1 : ℝ) from
          funext fun k => mul_inv_cancel₀ (hs k).ne',
        Matrix.diagonal_one])
  rw [normalMatrix, boxUpper, Matrix.mul_inv_rev, Matrix.transpose_mul, hRinv,
    Matrix.transpose_transpose, hSinv, Matrix.diagonal_transpose]

theorem updateBoxPlane_normal (R : M33) (scale t : W3) (invert : Bool) (i : Fin 6)
    (a : Fin 3)
    (hR : R.transpose * R = 1) (hs : ∀ k, 0 < scale k)
    (hax : (Matrix.diagonal fun k => (scale k)⁻¹).mulVec (sectInwardNormals i) =
      (scale a)⁻¹ • sectInwardNormals i)
    (hunit : Matrix.dotProduct (sectInwardNormals i) (sectInwardNormals i) = 1) :
    (updateBoxPlane R scale t invert i).normal =
      R.mulVec ((if invert then (-1 : ℝ) else 1) • sectInwardNormals i) := by
  have hnorm : (updateBoxPlane R scale t invert i).normal =
      normalizeV ((normalMatrix (boxUpper R scale)).mulVec
        ((if invert then (-1 : ℝ) else 1) • sectInwardNormals i)) := rfl
  have hw : Matrix.dotProduct
      (R.mulVec ((if invert then (-1 : ℝ) else 1) • sectInwardNormals i))
      (R.mulVec ((if invert then (-1 : ℝ) else 1) • sectInwardNormals i)) = 1 := by
    rw [mulVec_dot_self hR, Matrix.smul_dotProduct, Matrix.dotProduct_smul, hunit]
    cases invert <;> norm_num
  rw [hnorm, normalMatrix_boxUpper R scale hR hs, ← Matrix.mulVec_mulVec,
    Matrix.mulVec_smul, hax,
    smul_comm (if invert then (-1 : ℝ) else 1) ((scale a)⁻¹) (sectInwardNormals i),
    Matrix.mulVec_smul R ((scale a)⁻¹)]
  exact normalizeV_smul_unit _ (inv_pos.2 (hs a)) _ hw

theorem sectInwardNormals_unit (i : Fin 6) :
    Matrix.dotProduct (sectInwardNormals i) (sectInwardNormals i) = 1 := by
  fin_cases i <;> norm_num [sectInwardNormals, Matrix.dotProduct, Fin.sum_univ_three]

theorem sectDiag_mulVec (scale : W3) (i : Fin 6) :
    ∃ a : Fin 3, (Matrix.diagonal fun k => (scale k)⁻¹).mulVec (sectInwardNormals i) =
      (scale a)⁻¹ • sectInwardNormals i := by
  fin_cases i
  exacts
    [⟨0, by funext k; fin_cases k <;> simp [sectInwardNormals, Matrix.mulVec_diagonal]⟩,
      ⟨0, by funext k; fin_cases k <;> simp [sectInwardNormals, Matrix.mulVec_diagonal]⟩,
      ⟨1, by funext k; fin_cases k <;> simp [sectInwardNormals, Matrix.mulVec_diagonal]⟩,
      ⟨1, by funext k; fin_cases k <;> simp [sectInwardNormals, Matrix.mulVec_diagonal]⟩,
      ⟨2, by funext k; fin_cases k <;> simp [sectInwardNormals, Matrix.mulVec_diagonal]⟩,
      ⟨2, by funext k; fin_cases k <;> simp [sectInwardNormals, Matrix.mulVec_diagonal]⟩]

/-- C2: for every box transform (rotation `R`, positive non-uniform scale,
position `t`) each derived clip plane passes through the world-transformed
face-center point; its normal is the unit-length normal-matrix image of the
(inward, negated-under-invert) face normal and equals exactly the rotated
face axis — the non-uniform scale does not distort the direction; and the
clip-intersection flag pushed to registered materials is true exactly when
the mode is box and invert is set. -/
theorem boxClip_planes_correct (R : M33) (scale t : W3) (invert : Bool)
    (hR : R.transpose * R = 1) (hs : ∀ k, 0 < scale k) :
    (∀ i : Fin 6,
      Matrix.dotProduct (updateBoxPlane R scale t invert i).normal
          ((boxUpper R scale).mulVec (sectLocalPoints i) + t) +
        (updateBoxPlane R scale t invert i).constant = 0 ∧
      (updateBoxPlane R scale t invert i).normal =
        R.mulVec ((if invert then (-1 : ℝ) else 1) • sectInwardNormals i) ∧
      Matrix.dotProduct (updateBoxPlane R scale t invert i).normal
        (updateBoxPlane R scale t invert i).normal = 1) ∧
    (∀ (mode : SectionMode) (inv2 activePlanesNonempty : Bool)
        (mats : List MaterialClipState),
      ∀ m ∈ applyToMaterials mode inv2 activePlanesNonempty mats,
        (m.clipIntersection = true ↔ (mode = SectionMode.box ∧ inv2 = true))) := by
  constructor
  · intro i
    have hconst : (updateBoxPlane R scale t invert i).constant =
        -(Matrix.dotProduct ((boxUpper R scale).mulVec (sectLocalPoints i) + t)
          (updateBoxPlane R scale t invert i).normal) := rfl
    obtain ⟨a, hax⟩ := sectDiag_mulVec scale i
    have hnormal : (updateBoxPlane R scale t invert i).normal =
        R.mulVec ((if invert then (-1 : ℝ) else 1) • sectInwardNormals i) :=
      updateBoxPlane_normal R scale t invert i a hR hs hax (sectInwardNormals_unit i)
    refine ⟨?_, hnormal, ?_⟩
    · rw [hconst, Matrix.dotProduct_comm]
      ring
    · rw [hnormal, mulVec_dot_self hR, Matrix.smul_dotProduct, Matrix.dotProduct_smul,
        sectInwardNormals_unit i]
      cases invert <;> norm_num
  · intro mode inv2 activePlanesNonempty mats m hm
    obtain ⟨_, _, hm2⟩ := List.mem_map.1 hm
    rw [← hm2]
    constructor
    · intro hflag
      have := hflag
      simp only [Bool.and_eq_true, decide_eq_true_eq] at this
      exact this
    · intro hand
      simp only [Bool.and_eq_true, decide_eq_true_eq]
      exact hand

theorem boxClip_planes_correct_witness :
    ((1 : M33).transpose * 1 = 1 ∧
      ∀ k : Fin 3, (0 : ℝ) < (fun _ : Fin 3 => (1 : ℝ)) k) ∧
    (∀ (mode : SectionMode) (inv2 activePlanesNonempty : Bool)
        (mats : List MaterialClipState),
      ∀ m ∈ applyToMaterials mode inv2 activePlanesNonempty mats,
        (m.clipIntersection = true ↔ (mode = SectionMode.box ∧ inv2 = true))) :=
  ⟨⟨by simp, fun _ => by norm_num⟩,
    (boxClip_planes_correct 1 (fun _ : Fin 3 => (1 : ℝ)) (fun _ : Fin 3 => (0 : ℝ)) false
      (by simp) (fun _ => by norm_num)).2⟩

end Balux
